import Mathlib

/-!
Verification development for the jack_midi_clock repository.

The generator (`jack_midi_clock.c`) is embedded over the rational numbers:
all floating-point arithmetic in that file is field arithmetic together with
`floor`, `rint`/`llrint` (round to nearest, ties to even, the C default
rounding mode) and a double-to-int64 conversion (truncation toward zero),
all of which are exactly representable over the rationals.

The decoder's delay-locked loop (`jack_mclk_dump.c`) uses pi and the square
root of two, so it is embedded over the real numbers; its integer
bookkeeping (sequence counter, timestamps, song position) stays over the
natural numbers and integers and remains executable.
-/

set_option maxHeartbeats 1000000

/-- Round to nearest integer, ties to even: the semantics of the C library
functions `rint`, `rintf` and `llrint` under the default rounding mode. -/
def rintQ (q : ℚ) : ℤ :=
  if Int.fract q < 1/2 then ⌊q⌋
  else if 1/2 < Int.fract q then ⌊q⌋ + 1
  else if ⌊q⌋ % 2 = 0 then ⌊q⌋ else ⌊q⌋ + 1

/-- Conversion of a floating-point value to `int64_t` in C: truncation
toward zero. -/
def ratTrunc (q : ℚ) : ℤ :=
  if 0 ≤ q then ⌊q⌋ else ⌈q⌉

namespace JackMidiClock

/-- The three JACK transport states observed by `jack_midi_clock.c`
(`JackTransportStopped`, `JackTransportRolling`, `JackTransportStarting`). -/
inductive TState where
  | stopped
  | rolling
  | starting
deriving DecidableEq

/-- An emitted MIDI event: sample offset inside the block (as written by
`jack_midi_event_reserve` / `send_rt_message`) together with the raw bytes. -/
abbrev Event := ℤ × List ℕ

/-- `struct bbtpos`: the saved bar/beat/tick of the last seen transport
position.  `valid` is the `JackPositionBBT` bit of the saved `valid` flags. -/
structure BbtPos where
  valid : Bool
  bar : ℤ
  beat : ℤ
  tick : ℤ
  bar_start_tick : ℚ
deriving DecidableEq

/-- The fields of `jack_position_t` read by the generator.  `bbtValid` is
the `JackPositionBBT` flag, `frameOffsetValid` the `JackBBTFrameOffset`
flag. -/
structure JackPos where
  frame : ℕ
  frame_rate : ℕ
  bbtValid : Bool
  bar : ℤ
  beat : ℤ
  tick : ℤ
  bar_start_tick : ℚ
  beats_per_bar : ℚ
  beat_type : ℚ
  ticks_per_beat : ℚ
  beats_per_minute : ℚ
  frameOffsetValid : Bool
  bbt_offset : ℕ
deriving DecidableEq

/-- The command-line configuration of the generator.  `no_transport` and
`no_position` are the two bits of `msg_filter` (`MSG_NO_TRANSPORT`,
`MSG_NO_POSITION`). -/
structure Config where
  user_bpm : ℚ
  force_bpm : Bool
  tempo_is_qnpm : Bool
  no_transport : Bool
  no_position : Bool
  resync_delay : ℚ
deriving DecidableEq

/-- The generator's mutable state (the file-scope variables of
`jack_midi_clock.c` that persist between `process` callbacks). -/
structure GenState where
  m_xstate : TState
  mclk_last_tick : ℚ
  song_position_sync : ℤ
  last_xpos : BbtPos
deriving DecidableEq

/-- `pos_changed`: compare the saved BBT position with the current one. -/
def pos_changed (xp0 : BbtPos) (xp1 : JackPos) : ℤ :=
  if ¬xp0.valid then -1
  else if ¬xp1.bbtValid then -2
  else if xp0.bar = xp1.bar ∧ xp0.beat = xp1.beat ∧ xp0.tick = xp1.tick then 0
  else 1

/-- `remember_pos`: copy the relevant BBT info from the snapshot. -/
def remember_pos (xp0 : BbtPos) (xp1 : JackPos) : BbtPos :=
  if ¬xp1.bbtValid then xp0
  else ⟨true, xp1.bar, xp1.beat, xp1.tick, xp1.bar_start_tick⟩

/-- `calc_song_pos`: the 14-bit song position (kept in 64 bits) computed
from the BBT info.  The C expression assigns a `double` sum to an
`int64_t`, which truncates toward zero (`ratTrunc`).  The auto offset uses
`rintf`, i.e. round-to-nearest ties-to-even (`rintQ`); the embedding
computes it exactly rather than through an intermediate single-precision
value. -/
def calc_song_pos (resync_delay : ℚ) (xpos : JackPos) (off : ℤ) : ℤ :=
  if ¬xpos.bbtValid then -1
  else
    let offv : ℤ :=
      if off < 0 then
        if xpos.bar = 1 ∧ xpos.beat = 1 ∧ xpos.tick = 0 then 0
        else rintQ (xpos.beats_per_minute * 4 * resync_delay / 60)
      else off
    ratTrunc ((offv : ℚ)
      + 4 * (((xpos.bar : ℚ) - 1) * xpos.beats_per_bar + ((xpos.beat : ℚ) - 1))
      + ((⌊4 * (xpos.tick : ℚ) / xpos.ticks_per_beat⌋ : ℤ) : ℚ))

/-- `send_pos_message`: emit the `0xF2` Song Position Pointer message (the
event, if any, plus the value returned to the caller, `-1` for "no
message").  The JACK buffer reservation is modelled as always
succeeding. -/
def send_pos_message (cfg : Config) (xpos : JackPos) (off : ℤ) :
    Option Event × ℤ :=
  if cfg.no_position then (none, -1)
  else
    let bcnt := calc_song_pos cfg.resync_delay xpos off
    if bcnt < 0 ∨ 16384 ≤ bcnt then (none, -1)
    else (some (0, [0xf2, bcnt.toNat &&& 0x7f, (bcnt.toNat >>> 7) &&& 0x7f]), bcnt)

/-- Result of the transport-state-change block of `process` (the body of
`if (xstate != m_xstate) { ... }`): emitted events, the new
`song_position_sync`, the new `mclk_last_tick` and the new `m_xstate`. -/
structure TransOut where
  events : List Event
  sps : ℤ
  last : ℚ
  mx : TState
deriving DecidableEq

/-- The transport-state-change block of `process`, including the "initial
beat tick" and the final `mclk_last_tick = xpos.frame; m_xstate = xstate`
assignments.  When the state is unchanged it is the identity.  The C
`switch` falls through from `JackTransportRolling` into
`JackTransportStarting` whenever the rolling case's inner `if` is not
taken; `starting_case` is that shared tail. -/
def transition (cfg : Config) (xstate mx : TState) (sps : ℤ) (lastTick : ℚ)
    (xpos : JackPos) : TransOut :=
  if xstate = mx then ⟨[], sps, lastTick, mx⟩
  else
    let starting_case : List Event × ℤ :=
      if mx = TState.starting then ([], sps)
      else if xpos.frame = 0 then
        if ¬cfg.no_transport then ([((0 : ℤ), [0xfa])], 0) else ([], sps)
      else
        (if ¬cfg.no_transport ∧ cfg.no_position then [((0 : ℤ), [0xfb])] else [],
         sps)
    let switched : List Event × ℤ :=
      match xstate with
      | TState.stopped =>
        let r := send_pos_message cfg xpos (-1)
        ((if ¬cfg.no_transport then [((0 : ℤ), [0xfc])] else []) ++ r.1.toList,
         r.2)
      | TState.rolling =>
        if mx = TState.starting ∧ ¬cfg.no_position then
          let stopEv : List Event := if sps < 0 then [((0 : ℤ), [0xfc])] else []
          if sps ≠ 0 then
            let r := send_pos_message cfg xpos (-1)
            if r.2 < 0 then
              (stopEv ++ r.1.toList
                 ++ (if ¬cfg.no_transport then [((0 : ℤ), [0xfb])] else []),
               r.2)
            else (stopEv ++ r.1.toList, r.2)
          else (stopEv, -1)
        else starting_case
      | TState.starting => starting_case
    let tick : List Event :=
      if xstate = TState.rolling ∧ (xpos.frame = 0 ∨ cfg.no_position) then
        [((0 : ℤ), [0xf8])]
      else []
    ⟨switched.1 ++ tick, switched.2, (xpos.frame : ℚ), xstate⟩

/-- One iteration body of the clock-tick loop: the events emitted at offset
`off` (the just-in-time `continue` message, then the clock tick) and the
updated `song_position_sync`. -/
def iterEvents (cfg : Config) (xpos : JackPos) (off : ℤ) (sps : ℤ)
    (ticks : ℕ) : List Event × ℤ :=
  if 0 ≤ off then
    let contPart : List Event × ℤ :=
      if 0 < sps ∧ ¬cfg.no_position then
        let sync := calc_song_pos cfg.resync_delay xpos 0
        if sps ≤ sync + ((ticks / 4 : ℕ) : ℤ) then
          ((if ¬cfg.no_transport then [(off, [0xfb])] else []), -1)
        else ([], sps)
      else ([], sps)
    (contPart.1 ++ [(off, [0xf8])], contPart.2)
  else ([], sps)

/-- Result of the clock-tick loop: emitted events, final `mclk_last_tick`,
final `song_position_sync`, final `ticks_sent_this_cycle`. -/
structure LoopOut where
  events : List Event
  last : ℚ
  sps : ℤ
  ticks : ℕ
deriving DecidableEq

/-- The `while(1)` clock-tick loop of `process`.  `base` is
`xpos.frame + bbt_offset`; the loop breaks as soon as the rounded next
tick falls at or past the end of the block.  Termination requires a
positive tick interval (the C code divides positive quantities by a
positive tempo in every reachable call). -/
def clockLoop (cfg : Config) (xpos : JackPos) (itv : ℚ) (hitv : 0 < itv)
    (base : ℤ) (nframes : ℕ) (last : ℚ) (sps : ℤ) (ticks : ℕ) : LoopOut :=
  if hbr : (nframes : ℤ) ≤ rintQ (last + itv) - base then ⟨[], last, sps, ticks⟩
  else
    let it := iterEvents cfg xpos (rintQ (last + itv) - base) sps ticks
    let r := clockLoop cfg xpos itv hitv base nframes (last + itv) it.2 (ticks + 1)
    ⟨it.1 ++ r.events, r.last, r.sps, r.ticks⟩
termination_by (⌈(((base : ℚ) + (nframes : ℚ) - last) / itv)⌉).toNat
decreasing_by
  have hfl : (⌊last + itv⌋ : ℤ) ≤ rintQ (last + itv) := by
    unfold rintQ
    split_ifs <;> omega
  have h1 : ⌊last + itv⌋ + 1 ≤ (base : ℤ) + (nframes : ℤ) := by omega
  have h2 : last + itv < (base : ℚ) + (nframes : ℚ) := by
    have hf := Int.lt_floor_add_one (last + itv)
    have hc : ((⌊last + itv⌋ : ℤ) : ℚ) + 1 ≤ (base : ℚ) + (nframes : ℚ) := by
      exact_mod_cast h1
    linarith
  have hX : itv < (base : ℚ) + (nframes : ℚ) - last := by linarith
  have hdiv : ((base : ℚ) + (nframes : ℚ) - (last + itv)) / itv
      = ((base : ℚ) + (nframes : ℚ) - last) / itv - 1 := by
    field_simp
    ring
  have hXdiv : 1 < ((base : ℚ) + (nframes : ℚ) - last) / itv :=
    (one_lt_div hitv).mpr hX
  have hceil2 : 2 ≤ ⌈((base : ℚ) + (nframes : ℚ) - last) / itv⌉ := by
    have : (1 : ℤ) < ⌈((base : ℚ) + (nframes : ℚ) - last) / itv⌉ :=
      Int.lt_ceil.mpr (by exact_mod_cast hXdiv)
    omega
  have heq : ⌈((base : ℚ) + (nframes : ℚ) - (last + itv)) / itv⌉
      = ⌈((base : ℚ) + (nframes : ℚ) - last) / itv⌉ - 1 := by
    rw [hdiv]
    exact_mod_cast Int.ceil_sub_int (((base : ℚ) + (nframes : ℚ) - last) / itv) 1
  simp only [heq]
  omega

/-- The tempo selection of `process`: the chosen `samples_per_beat`
together with the `bbt_offset` actually used (nonzero only in the
transport-BBT branch when `JackBBTFrameOffset` is valid); `none` when no
tempo is known. -/
def samples_per_beat_opt (cfg : Config) (xpos : JackPos) : Option (ℚ × ℕ) :=
  if cfg.force_bpm ∧ 0 < cfg.user_bpm then
    some ((xpos.frame_rate : ℚ) * 60 / cfg.user_bpm, 0)
  else if xpos.bbtValid then
    some ((xpos.frame_rate : ℚ) * 60 / xpos.beats_per_minute,
      if xpos.frameOffsetValid then xpos.bbt_offset else 0)
  else if 0 < cfg.user_bpm then
    some ((xpos.frame_rate : ℚ) * 60 / cfg.user_bpm, 0)
  else none

/-- `quarter_notes_per_beat` from `process`. -/
def quarter_notes_per_beat (cfg : Config) (xpos : JackPos) : ℚ :=
  if cfg.tempo_is_qnpm then 1 else xpos.beat_type / 4

/-- `clock_tick_interval` from `process`:
`samples_per_beat / quarter_notes_per_beat / 24`, when a tempo is known. -/
def clock_tick_interval (cfg : Config) (xpos : JackPos) : Option ℚ :=
  (samples_per_beat_opt cfg xpos).map
    (fun sb => sb.1 / quarter_notes_per_beat cfg xpos / 24)

/-- The tempo actually chosen by `process` (forced/user BPM or the
transport's `beats_per_minute`), before the quarter-note correction. -/
def transport_tempo_opt (cfg : Config) (xpos : JackPos) : Option ℚ :=
  if cfg.force_bpm ∧ 0 < cfg.user_bpm then some cfg.user_bpm
  else if xpos.bbtValid then some xpos.beats_per_minute
  else if 0 < cfg.user_bpm then some cfg.user_bpm
  else none

/-- Modelled from the spec's words (for comparison with the source): the
"effective tempo" of the TickScheduler, i.e. the chosen tempo expressed in
quarter notes per minute, so that
`interval = frameRate*60/effectiveTempo/24`. -/
def effectiveTempo (cfg : Config) (xpos : JackPos) : Option ℚ :=
  (transport_tempo_opt cfg xpos).map (· * quarter_notes_per_beat cfg xpos)

/-- The `process` callback of `jack_midi_clock.c` (with `client_state`
assumed `Run`): one block of work.  Returns the emitted events in buffer
order together with the new persistent state, or `none` when the C loop
would not terminate (non-positive clock-tick interval, which no reachable
configuration with a positive tempo produces). -/
def process (cfg : Config) (s : GenState) (xstate : TState) (xpos : JackPos)
    (nframes : ℕ) : Option (List Event × GenState) :=
  let stopPos : List Event × ℤ :=
    if xstate = TState.stopped ∧ s.m_xstate = TState.stopped
        ∧ 0 < pos_changed s.last_xpos xpos then
      let r := send_pos_message cfg xpos (-1)
      (r.1.toList, r.2)
    else ([], s.song_position_sync)
  let lastx := remember_pos s.last_xpos xpos
  let tr := transition cfg xstate s.m_xstate stopPos.2 s.mclk_last_tick xpos
  if xstate ≠ TState.rolling then
    some (stopPos.1 ++ tr.events, ⟨tr.mx, tr.last, tr.sps, lastx⟩)
  else
    match samples_per_beat_opt cfg xpos with
    | none => some (stopPos.1 ++ tr.events, ⟨tr.mx, tr.last, tr.sps, lastx⟩)
    | some sb =>
      let itv := sb.1 / quarter_notes_per_beat cfg xpos / 24
      if hitv : 0 < itv then
        let r := clockLoop cfg xpos itv hitv ((xpos.frame : ℤ) + (sb.2 : ℤ))
          nframes tr.last tr.sps 0
        some (stopPos.1 ++ tr.events ++ r.events, ⟨tr.mx, r.last, r.sps, lastx⟩)
      else none

/-- The two option clamps of `decode_switches` in `jack_midi_clock.c`: an
out-of-range `--resync-delay` argument is replaced by the 2.0 s default
(with a warning), never a fatal error. -/
def resync_delay_of_arg (x : ℚ) : ℚ :=
  if x < 0 ∨ 20 < x then 2 else x

end JackMidiClock

namespace MclkDump

/-- `timenfo`: one parsed MIDI beat-clock event (message byte, decoded song
position for `0xF2`, absolute sample time). -/
structure timenfo where
  msg : ℕ
  pos : ℤ
  tme : ℕ
deriving DecidableEq

/-- `DelayLockedLoop`: the DLL state.  The struct carries an `omega` field
that the C code never assigns after `memset` (the `omega` in `init_dll` is
a local); it is kept for layout fidelity. -/
structure DelayLockedLoop where
  t0 : ℝ
  t1 : ℝ
  e2 : ℝ
  b : ℝ
  c : ℝ
  omega : ℝ

/-- `struct appstate` of `jack_mclk_dump.c`. -/
structure appstate where
  pt : timenfo
  dll : DelayLockedLoop
  transport : ℕ
  sequence : ℕ
  bcnt : ℤ

/-- `process_jmidi_event`: classify a raw MIDI event.  Only single realtime
bytes and three-byte `0xF2` messages are accepted; everything else is
discarded (`none`).  (A one-byte message whose single byte is `0xF2` makes
the C code read past the buffer; it never occurs on a well-formed stream
and is modelled as discarded.) -/
def process_jmidi_event (bytes : List ℕ) (tme : ℕ) : Option timenfo :=
  match bytes with
  | [b0, b1, b2] =>
    if b0 = 0xf2 then some ⟨0xf2, (((b2 <<< 7) ||| b1 : ℕ) : ℤ), tme⟩ else none
  | [b0] =>
    if b0 = 0xf8 ∨ b0 = 0xfa ∨ b0 = 0xfb ∨ b0 = 0xfc then some ⟨b0, 0, tme⟩
    else none
  | _ => none

/-- `init_dll`: initialize the DLL from the current time and period (both
in samples).  The C source writes the coefficient `b` as
`1.4142135623730950488 * omega`; that literal is the correctly rounded
decimal expansion of the square root of two, identical to `sqrt(2.0)` at
double precision, so in this real-number model it denotes `Real.sqrt 2`. -/
noncomputable def init_dll (bw sr : ℝ) (dll : DelayLockedLoop) (tme period : ℝ) :
    DelayLockedLoop :=
  let omega := 2 * Real.pi * period / bw / sr
  { dll with
    b := Real.sqrt 2 * omega
    c := omega * omega
    e2 := period / sr
    t0 := tme / sr
    t1 := tme / sr + period / sr }

/-- `run_dll`: one DLL iteration; returns the updated state and the
smoothed period `t1 - t0` (in seconds). -/
noncomputable def run_dll (sr : ℝ) (dll : DelayLockedLoop) (tme : ℝ) :
    DelayLockedLoop × ℝ :=
  let e := tme / sr - dll.t1
  let t1n := dll.t1 + dll.b * e + dll.e2
  ({ dll with t0 := dll.t1, t1 := t1n, e2 := dll.e2 + dll.c * e },
   t1n - dll.t1)

/-- The `CLK` line printed by `print_time_event` for a Clock event:
current (instantaneous) BPM, filtered BPM and the raw inter-clock delta.
`none` models the `??` fields printed while `sequence == 0`.  (The
bar|beat|tick display derived from `bcnt` and `transport` is not part of
this record.) -/
structure ClockReport where
  cur : Option ℝ
  flt : Option ℝ
  dt : Option ℕ

/-- `print_time_event`: the decoder's state machine.  Returns the new
`appstate` and the `CLK` report, if the event was a Clock.  Timestamps are
monotone on a well-formed stream, so the unsigned subtraction
`t->tme - s->pt.tme` is modelled by truncated natural subtraction. -/
noncomputable def print_time_event (bw sr : ℝ) (s : appstate) (t : timenfo) :
    appstate × Option ClockReport :=
  if t.msg = 0xf2 then
    ({ s with bcnt := t.pos }, none)
  else if t.msg = 0xfa ∨ t.msg = 0xfb ∨ t.msg = 0xfc then
    ({ s with
        sequence := 0
        transport := if t.msg = 0xfc then 0 else t.tme
        bcnt := if t.msg = 0xfa then 0 else s.bcnt }, none)
  else
    let dllflt : DelayLockedLoop × ℝ :=
      if s.sequence = 1 then
        (init_dll bw sr s.dll (t.tme : ℝ) ((t.tme - s.pt.tme : ℕ) : ℝ),
         sr * 60 / (24 * ((t.tme - s.pt.tme : ℕ) : ℝ)))
      else if 1 < s.sequence then
        let r := run_dll sr s.dll (t.tme : ℝ)
        (r.1, 60 / (24 * r.2))
      else (s.dll, 0)
    let rep : Option ClockReport :=
      if t.msg = 0xf8 ∧ 0 < s.sequence then
        some { cur := some (sr * 60 / (((t.tme - s.pt.tme : ℕ) : ℝ) * 24))
               flt := some dllflt.2
               dt := some (t.tme - s.pt.tme) }
      else if t.msg = 0xf8 then
        some { cur := none, flt := none, dt := none }
      else none
    let s1 : appstate := { s with dll := dllflt.1 }
    if t.msg = 0xf8 then ({ s1 with pt := t, sequence := s1.sequence + 1 }, rep)
    else (s1, rep)

/-- The bandwidth clamp of `decode_switches` in `jack_mclk_dump.c`: an
out-of-range `--bandwidth` argument is replaced by the 6.0 default (with a
warning), never a fatal error. -/
def dll_bandwidth_of_arg (x : ℚ) : ℚ :=
  if x < 1/10 ∨ 100 < x then 6 else x

end MclkDump

/-! Concrete inputs used by the witness and counterexample theorems. -/

/-- Default generator configuration: no user BPM, tempo read as quarter
notes per minute, all message kinds enabled, 2 s resync delay. -/
def exCfgDefault : JackMidiClock.Config :=
  ⟨0, false, true, false, false, 2⟩

/-- An all-clear saved BBT position. -/
def exBbt0 : JackMidiClock.BbtPos := ⟨false, 0, 0, 0, 0⟩

/-- A transport snapshot with valid BBT info: 48 kHz, 120 BPM, 4/4,
bar 3 beat 2 tick 60, at frame 0. -/
def exXposBBT : JackMidiClock.JackPos :=
  ⟨0, 48000, true, 3, 2, 60, 0, 4, 4, 1920, 120, false, 0⟩

/-- A transport snapshot without BBT info (no timecode master). -/
def exXposInvalid : JackMidiClock.JackPos :=
  ⟨0, 48000, false, 0, 0, 0, 0, 0, 0, 0, 0, false, 0⟩

/-- Like `exXposBBT`, but the timecode master also reports a BBT frame
offset (`JackBBTFrameOffset` valid, `bbt_offset = 500`). -/
def exXposOffs : JackMidiClock.JackPos :=
  ⟨0, 48000, true, 3, 2, 60, 0, 4, 4, 1920, 120, true, 500⟩

/-- Generator state: transport was stopped, nothing pending. -/
def exGenStopped : JackMidiClock.GenState :=
  ⟨JackMidiClock.TState.stopped, 0, -1, exBbt0⟩

/-- Generator state: steadily rolling, no sync target armed. -/
def exGenRolling : JackMidiClock.GenState :=
  ⟨JackMidiClock.TState.rolling, 0, -1, exBbt0⟩

/-- Generator state: previous observed state `Starting` (a locate while
rolling is in progress), no sync target armed. -/
def exGenStarting : JackMidiClock.GenState :=
  ⟨JackMidiClock.TState.starting, 0, -1, exBbt0⟩

/-- A zeroed DLL (the decoder's state after `memset`). -/
noncomputable def exDll0 : MclkDump.DelayLockedLoop := ⟨0, 0, 0, 0, 0, 0⟩

/-- Decoder state right after the first Clock following a reset: one Clock
(at time 0) has been counted. -/
noncomputable def exAppSeq1 : MclkDump.appstate :=
  ⟨⟨0xf8, 0, 0⟩, exDll0, 0, 1, 0⟩

/-- Decoder state with a deep Clock sequence. -/
noncomputable def exAppSeq9 : MclkDump.appstate :=
  ⟨⟨0xf8, 0, 8000⟩, exDll0, 0, 9, 0⟩

/-- A Clock event at sample time 1000. -/
def exClk : MclkDump.timenfo := ⟨0xf8, 0, 1000⟩

/-- A Stop event at sample time 2000. -/
def exStop : MclkDump.timenfo := ⟨0xfc, 0, 2000⟩

/-! Helper lemmas. -/

theorem rintQ_floor_le (q : ℚ) : ⌊q⌋ ≤ rintQ q := by
  unfold rintQ
  split_ifs <;> omega

theorem rintQ_le_floor_add_one (q : ℚ) : rintQ q ≤ ⌊q⌋ + 1 := by
  unfold rintQ
  split_ifs <;> omega

theorem rintQ_mono {q r : ℚ} (h : q ≤ r) : rintQ q ≤ rintQ r := by
  rcases lt_or_eq_of_le (Int.floor_le_floor h) with hf | hf
  · calc rintQ q ≤ ⌊q⌋ + 1 := rintQ_le_floor_add_one q
      _ ≤ ⌊r⌋ := by omega
      _ ≤ rintQ r := rintQ_floor_le r
  · have hfr : Int.fract q ≤ Int.fract r := by
      have hq := Int.floor_add_fract q
      have hr := Int.floor_add_fract r
      rw [hf] at hq
      linarith
    unfold rintQ
    rw [hf]
    split_ifs <;> first | omega | linarith

theorem ratTrunc_intCast (m : ℤ) : ratTrunc ((m : ℚ)) = m := by
  unfold ratTrunc
  split_ifs <;> simp

/-- The two bytes of an emitted Song Position Pointer message reassemble,
through the decoder's `(buffer[2]<<7)|buffer[1]`, into the original
14-bit value. -/
theorem songpos_bytes_roundtrip (p : ℕ) (hp : p < 16384) :
    (((p >>> 7) &&& 127) <<< 7) ||| (p &&& 127) = p := by
  have h127 : (127 : ℕ) = 2 ^ 7 - 1 := by norm_num
  rw [h127, Nat.and_pow_two_sub_one_eq_mod, Nat.and_pow_two_sub_one_eq_mod,
    Nat.shiftRight_eq_div_pow, Nat.shiftLeft_eq]
  have hdiv : p / 2 ^ 7 % 2 ^ 7 = p / 2 ^ 7 := Nat.mod_eq_of_lt (by omega)
  rw [hdiv, Nat.mul_comm (p / 2 ^ 7) (2 ^ 7)]
  rw [← Nat.mul_add_lt_is_or (Nat.mod_lt p (by norm_num)) (p / 2 ^ 7)]
  exact Nat.div_add_mod p (2 ^ 7)

/-! Claim theorems. -/

/-- Claim C2: `init_dll` sets `omega = 2*pi*initialPeriod/(bandwidth*sampleRate)`,
`b = sqrt(2)*omega`, `c = omega^2`, `e2 = initialPeriod/sampleRate`,
`t0 = initialTimestamp/sampleRate`, `t1 = t0 + e2`; `run_dll` computes
`e = timestamp/sampleRate - t1`, then `t0 := t1`, `t1 := t1 + b*e + e2`,
`e2 := e2 + c*e`, and returns `t1 - t0` (the new values); the coefficients
`b` and `c` are assigned only by `init_dll` and are left unchanged by
`run_dll`. -/
theorem claim_C2 (bw sr ts p tme : ℝ) (d0 d : MclkDump.DelayLockedLoop) :
    (MclkDump.init_dll bw sr d0 ts p).b
        = Real.sqrt 2 * (2 * Real.pi * p / (bw * sr))
    ∧ (MclkDump.init_dll bw sr d0 ts p).c
        = (2 * Real.pi * p / (bw * sr)) ^ 2
    ∧ (MclkDump.init_dll bw sr d0 ts p).e2 = p / sr
    ∧ (MclkDump.init_dll bw sr d0 ts p).t0 = ts / sr
    ∧ (MclkDump.init_dll bw sr d0 ts p).t1
        = (MclkDump.init_dll bw sr d0 ts p).t0
          + (MclkDump.init_dll bw sr d0 ts p).e2
    ∧ (MclkDump.run_dll sr d tme).1.t0 = d.t1
    ∧ (MclkDump.run_dll sr d tme).1.t1
        = d.t1 + d.b * (tme / sr - d.t1) + d.e2
    ∧ (MclkDump.run_dll sr d tme).1.e2 = d.e2 + d.c * (tme / sr - d.t1)
    ∧ (MclkDump.run_dll sr d tme).2
        = (MclkDump.run_dll sr d tme).1.t1 - (MclkDump.run_dll sr d tme).1.t0
    ∧ (MclkDump.run_dll sr d tme).1.b = d.b
    ∧ (MclkDump.run_dll sr d tme).1.c = d.c := by
  refine ⟨?_, ?_, rfl, rfl, rfl, rfl, rfl, rfl, rfl, rfl, rfl⟩
  · show Real.sqrt 2 * (2 * Real.pi * p / bw / sr)
        = Real.sqrt 2 * (2 * Real.pi * p / (bw * sr))
    rw [div_div]
  · show (2 * Real.pi * p / bw / sr) * (2 * Real.pi * p / bw / sr)
        = (2 * Real.pi * p / (bw * sr)) ^ 2
    rw [div_div, sq]

/-- Claim C9: an out-of-range DLL bandwidth argument yields an effective
bandwidth inside [0.1, 100] (namely the 6.0 default), an out-of-range
resync delay yields the safe 2.0 default inside [0, 20]; both handlers are
total functions (a warning, never an abort). -/
theorem claim_C9 (x : ℚ) :
    (1/10 ≤ MclkDump.dll_bandwidth_of_arg x
      ∧ MclkDump.dll_bandwidth_of_arg x ≤ 100)
    ∧ ((x < 1/10 ∨ 100 < x) → MclkDump.dll_bandwidth_of_arg x = 6)
    ∧ (0 ≤ JackMidiClock.resync_delay_of_arg x
      ∧ JackMidiClock.resync_delay_of_arg x ≤ 20)
    ∧ ((x < 0 ∨ 20 < x) → JackMidiClock.resync_delay_of_arg x = 2) := by
  unfold MclkDump.dll_bandwidth_of_arg JackMidiClock.resync_delay_of_arg
  refine ⟨?_, fun hx => if_pos hx, ?_, fun hx => if_pos hx⟩
  · split_ifs with h
    · norm_num
    · push_neg at h
      exact h
  · split_ifs with h
    · norm_num
    · push_neg at h
      exact h

theorem claim_C9_witness :
    MclkDump.dll_bandwidth_of_arg 200 = 6
    ∧ JackMidiClock.resync_delay_of_arg 200 = 2 :=
  ⟨(claim_C9 200).2.1 (Or.inr (by norm_num)),
   (claim_C9 200).2.2.2 (Or.inr (by norm_num))⟩

/-- Claim C6: the decoder's sequence counter is reset to 0 by every Start
(`0xFA`), Continue (`0xFB`) or Stop (`0xFC`) event, regardless of its
previous value, and it is incremented precisely by Clock (`0xF8`)
events. -/
theorem claim_C6 (bw sr : ℝ) (s : MclkDump.appstate) (t : MclkDump.timenfo) :
    ((t.msg = 0xfa ∨ t.msg = 0xfb ∨ t.msg = 0xfc) →
      (MclkDump.print_time_event bw sr s t).1.sequence = 0)
    ∧ ((MclkDump.print_time_event bw sr s t).1.sequence = s.sequence + 1
        ↔ t.msg = 0xf8) := by
  unfold MclkDump.print_time_event
  by_cases h2 : t.msg = 0xf2
  · simp [h2]
  · by_cases hc : t.msg = 0xfa ∨ t.msg = 0xfb ∨ t.msg = 0xfc
    · have h8 : ¬t.msg = 0xf8 := by omega
      simp [h2, hc, h8]
    · by_cases h8 : t.msg = 0xf8
      · simp [h2, hc, h8]
      · simp [h2, hc, h8]

theorem claim_C6_witness :
    (MclkDump.print_time_event 6 48000 exAppSeq9 exStop).1.sequence = 0 :=
  (claim_C6 6 48000 exAppSeq9 exStop).1 (Or.inr (Or.inr rfl))

/-- Claim C10: processing a SongPosition (`0xF2`) event changes only the
stored last-song-position field `bcnt`; the sequence counter, previous
Clock info, transport-start timestamp and the entire DLL state are
untouched, and consequently the report (instantaneous and filtered BPM)
produced for any subsequent event is the same as if the SongPosition had
never been processed. -/
theorem claim_C10 (bw sr : ℝ) (s : MclkDump.appstate) (pos : ℤ) (tme : ℕ) :
    (MclkDump.print_time_event bw sr s ⟨0xf2, pos, tme⟩).1 = { s with bcnt := pos }
    ∧ ∀ t' : MclkDump.timenfo,
        (MclkDump.print_time_event bw sr { s with bcnt := pos } t').2
          = (MclkDump.print_time_event bw sr s t').2 := by
  obtain ⟨pt, dll, tp, seq, bc⟩ := s
  constructor
  · rfl
  · intro t'
    unfold MclkDump.print_time_event
    by_cases ha : t'.msg = 0xf2
    · simp [ha]
    · by_cases hb : t'.msg = 0xfa ∨ t'.msg = 0xfb ∨ t'.msg = 0xfc
      · simp [ha, hb]
      · by_cases hd : t'.msg = 0xf8 <;> simp [ha, hb, hd]

theorem claim_C10_witness :
    (MclkDump.print_time_event 6 48000 exAppSeq9 ⟨0xf2, 96, 8500⟩).1
      = { exAppSeq9 with bcnt := 96 } :=
  (claim_C10 6 48000 exAppSeq9 96 8500).1

/-- Claim C7, counterexample: with the decoder at `sequence == 1` (one
Clock seen since the last reset), processing the next Clock produces a
report whose filtered-BPM field is a concrete number (it equals the
instantaneous BPM), not the `??` placeholder — the claim's "filtered BPM
is reported as unknown until the second DLL update" is false on the
code. -/
theorem claim_C7_counterexample :
    exAppSeq1.sequence = 1
    ∧ ((MclkDump.print_time_event 6 48000 exAppSeq1 exClk).2.bind
        MclkDump.ClockReport.flt).isSome = true :=
  ⟨rfl, rfl⟩

/-- Claim C7, amended: on a Clock at `sequence == 1` the DLL is initialized
with period `currentTimestamp - previousTimestamp` and the report carries
instantaneous BPM `sampleRate*60/(24*period)`; the reported filtered BPM at
that point equals the same instantaneous value (the `??` placeholder is
printed only while `sequence == 0`).  For `sequence > 1` the filtered BPM
is `60/(24*smoothedPeriod)` with `smoothedPeriod` from `run_dll`. -/
theorem claim_C7 (bw sr : ℝ) (s : MclkDump.appstate) (t : MclkDump.timenfo)
    (hmsg : t.msg = 0xf8) :
    (s.sequence = 1 →
      (MclkDump.print_time_event bw sr s t).1.dll
          = MclkDump.init_dll bw sr s.dll (t.tme : ℝ) ((t.tme - s.pt.tme : ℕ) : ℝ)
        ∧ (MclkDump.print_time_event bw sr s t).2
          = some ⟨some (sr * 60 / (24 * ((t.tme - s.pt.tme : ℕ) : ℝ))),
                  some (sr * 60 / (24 * ((t.tme - s.pt.tme : ℕ) : ℝ))),
                  some (t.tme - s.pt.tme)⟩)
    ∧ (1 < s.sequence →
      (MclkDump.print_time_event bw sr s t).1.dll
          = (MclkDump.run_dll sr s.dll (t.tme : ℝ)).1
        ∧ (MclkDump.print_time_event bw sr s t).2
          = some ⟨some (sr * 60 / (((t.tme - s.pt.tme : ℕ) : ℝ) * 24)),
                  some (60 / (24 * (MclkDump.run_dll sr s.dll (t.tme : ℝ)).2)),
                  some (t.tme - s.pt.tme)⟩)
    ∧ (s.sequence = 0 →
      (MclkDump.print_time_event bw sr s t).2 = some ⟨none, none, none⟩) := by
  refine ⟨fun h1 => ?_, fun h1 => ?_, fun h0 => ?_⟩
  · unfold MclkDump.print_time_event
    rw [mul_comm ((t.tme - s.pt.tme : ℕ) : ℝ) 24]
    simp only [hmsg, h1]
    norm_num
  · have h1' : ¬s.sequence = 1 := by omega
    unfold MclkDump.print_time_event
    simp only [hmsg, if_neg h1', h1]
    norm_num
    omega
  · have h1' : ¬s.sequence = 1 := by omega
    unfold MclkDump.print_time_event
    simp only [hmsg, if_neg h1', h0]
    norm_num

theorem claim_C7_witness :
    exClk.msg = 0xf8 ∧ exAppSeq1.sequence = 1 ∧
    (MclkDump.print_time_event 6 48000 exAppSeq1 exClk).1.dll
        = MclkDump.init_dll 6 48000 exAppSeq1.dll ((exClk.tme : ℕ) : ℝ)
            ((exClk.tme - exAppSeq1.pt.tme : ℕ) : ℝ)
    ∧ (MclkDump.print_time_event 6 48000 exAppSeq1 exClk).2
        = some ⟨some ((48000 : ℝ) * 60 / (24 * ((exClk.tme - exAppSeq1.pt.tme : ℕ) : ℝ))),
                some ((48000 : ℝ) * 60 / (24 * ((exClk.tme - exAppSeq1.pt.tme : ℕ) : ℝ))),
                some (exClk.tme - exAppSeq1.pt.tme)⟩ :=
  ⟨rfl, rfl, (claim_C7 6 48000 exAppSeq1 exClk rfl).1 rfl⟩


/-- Claim C3: with valid BBT info and an integral `beats_per_bar`, the
song-position encoder computes
`pos = offsetBeats + 4*((bar-1)*beatsPerBar + (beat-1)) + floor(4*tick/ticksPerBeat)`,
where on the auto-offset path (`off < 0`) `offsetBeats` is 0 at exactly
bar 1, beat 1, tick 0 and `round(bpm*4*resyncDelay/60)` otherwise; a Song
Position message is emitted precisely when `0 <= pos < 16384`, an
out-of-range value producing no message instead of an error. -/
theorem claim_C3 (cfg : JackMidiClock.Config) (xpos : JackMidiClock.JackPos)
    (off k : ℤ) (hbv : xpos.bbtValid = true)
    (hk : xpos.beats_per_bar = (k : ℚ)) (hoff : off < 0)
    (hnp : cfg.no_position = false) :
    JackMidiClock.calc_song_pos cfg.resync_delay xpos off
      = (if xpos.bar = 1 ∧ xpos.beat = 1 ∧ xpos.tick = 0 then 0
         else rintQ (xpos.beats_per_minute * 4 * cfg.resync_delay / 60))
        + 4 * ((xpos.bar - 1) * k + (xpos.beat - 1))
        + ⌊4 * (xpos.tick : ℚ) / xpos.ticks_per_beat⌋
    ∧ (JackMidiClock.send_pos_message cfg xpos off).1
      = (if 0 ≤ JackMidiClock.calc_song_pos cfg.resync_delay xpos off
            ∧ JackMidiClock.calc_song_pos cfg.resync_delay xpos off < 16384
         then some ((0 : ℤ), [0xf2,
            (JackMidiClock.calc_song_pos cfg.resync_delay xpos off).toNat &&& 0x7f,
            ((JackMidiClock.calc_song_pos cfg.resync_delay xpos off).toNat >>> 7) &&& 0x7f])
         else none) := by
  have key : ∀ ov : ℤ, ratTrunc ((ov : ℚ)
      + 4 * (((xpos.bar : ℚ) - 1) * (k : ℚ) + ((xpos.beat : ℚ) - 1))
      + ((⌊4 * (xpos.tick : ℚ) / xpos.ticks_per_beat⌋ : ℤ) : ℚ))
      = ov + 4 * ((xpos.bar - 1) * k + (xpos.beat - 1))
        + ⌊4 * (xpos.tick : ℚ) / xpos.ticks_per_beat⌋ := by
    intro ov
    have hcast : ((ov : ℚ)
        + 4 * (((xpos.bar : ℚ) - 1) * (k : ℚ) + ((xpos.beat : ℚ) - 1))
        + ((⌊4 * (xpos.tick : ℚ) / xpos.ticks_per_beat⌋ : ℤ) : ℚ))
        = (((ov + 4 * ((xpos.bar - 1) * k + (xpos.beat - 1))
            + ⌊4 * (xpos.tick : ℚ) / xpos.ticks_per_beat⌋ : ℤ)) : ℚ) := by
      push_cast
      ring
    rw [hcast, ratTrunc_intCast]
  constructor
  · unfold JackMidiClock.calc_song_pos
    rw [if_neg (by simp [hbv]), if_pos hoff, hk]
    exact key _
  · unfold JackMidiClock.send_pos_message
    simp only [hnp, Bool.false_eq_true, if_false]
    by_cases h : JackMidiClock.calc_song_pos cfg.resync_delay xpos off < 0
        ∨ 16384 ≤ JackMidiClock.calc_song_pos cfg.resync_delay xpos off
    · rw [if_pos h, if_neg (by omega)]
    · rw [if_neg h, if_pos (by omega)]

theorem claim_C3_witness :
    exXposBBT.bbtValid = true
    ∧ exXposBBT.beats_per_bar = ((4 : ℤ) : ℚ)
    ∧ (-1 : ℤ) < 0
    ∧ exCfgDefault.no_position = false
    ∧ JackMidiClock.calc_song_pos exCfgDefault.resync_delay exXposBBT (-1)
      = (if exXposBBT.bar = 1 ∧ exXposBBT.beat = 1 ∧ exXposBBT.tick = 0 then 0
         else rintQ (exXposBBT.beats_per_minute * 4 * exCfgDefault.resync_delay / 60))
        + 4 * ((exXposBBT.bar - 1) * 4 + (exXposBBT.beat - 1))
        + ⌊4 * (exXposBBT.tick : ℚ) / exXposBBT.ticks_per_beat⌋ :=
  ⟨rfl, by decide, by decide, rfl,
   (claim_C3 exCfgDefault exXposBBT (-1) 4 rfl (by decide) (by decide) rfl).1⟩

/-- Claim C4: for every position value in [0, 16383] the generator emits
exactly the bytes `[0xF2, pos & 0x7F, (pos >> 7) & 0x7F]` and the
decoder's `(buffer[2] << 7) | buffer[1]` recovers `pos`, so decoding an
emitted message is the identity; a position outside [0, 16383] produces no
emitted message. -/
theorem claim_C4 (cfg : JackMidiClock.Config) (xpos : JackMidiClock.JackPos)
    (off : ℤ) (tme : ℕ) (hnp : cfg.no_position = false) :
    (0 ≤ JackMidiClock.calc_song_pos cfg.resync_delay xpos off
        ∧ JackMidiClock.calc_song_pos cfg.resync_delay xpos off < 16384 →
      (JackMidiClock.send_pos_message cfg xpos off).1
        = some ((0 : ℤ), [0xf2,
            (JackMidiClock.calc_song_pos cfg.resync_delay xpos off).toNat &&& 0x7f,
            ((JackMidiClock.calc_song_pos cfg.resync_delay xpos off).toNat >>> 7) &&& 0x7f])
      ∧ MclkDump.process_jmidi_event
          [0xf2,
           (JackMidiClock.calc_song_pos cfg.resync_delay xpos off).toNat &&& 0x7f,
           ((JackMidiClock.calc_song_pos cfg.resync_delay xpos off).toNat >>> 7) &&& 0x7f]
          tme
        = some ⟨0xf2, JackMidiClock.calc_song_pos cfg.resync_delay xpos off, tme⟩)
    ∧ (JackMidiClock.calc_song_pos cfg.resync_delay xpos off < 0
        ∨ 16384 ≤ JackMidiClock.calc_song_pos cfg.resync_delay xpos off →
      (JackMidiClock.send_pos_message cfg xpos off).1 = none) := by
  constructor
  · intro h
    constructor
    · unfold JackMidiClock.send_pos_message
      simp only [hnp, Bool.false_eq_true, if_false]
      rw [if_neg (by omega)]
    · have hlt : (JackMidiClock.calc_song_pos cfg.resync_delay xpos off).toNat
          < 16384 := by omega
      have hrt := songpos_bytes_roundtrip
        (JackMidiClock.calc_song_pos cfg.resync_delay xpos off).toNat hlt
      have hstep : MclkDump.process_jmidi_event
          [0xf2,
           (JackMidiClock.calc_song_pos cfg.resync_delay xpos off).toNat &&& 0x7f,
           ((JackMidiClock.calc_song_pos cfg.resync_delay xpos off).toNat >>> 7) &&& 0x7f]
          tme
        = some ⟨0xf2,
            (((((JackMidiClock.calc_song_pos cfg.resync_delay xpos off).toNat >>> 7) &&& 0x7f) <<< 7
               ||| ((JackMidiClock.calc_song_pos cfg.resync_delay xpos off).toNat &&& 0x7f) : ℕ) : ℤ),
            tme⟩ := rfl
      rw [hstep, hrt, Int.toNat_of_nonneg h.1]
  · intro h
    unfold JackMidiClock.send_pos_message
    simp only [hnp, Bool.false_eq_true, if_false]
    rw [if_pos h]

theorem claim_C4_witness :
    exCfgDefault.no_position = false
    ∧ (0 : ℤ) ≤ JackMidiClock.calc_song_pos exCfgDefault.resync_delay exXposBBT (-1)
    ∧ JackMidiClock.calc_song_pos exCfgDefault.resync_delay exXposBBT (-1) < 16384
    ∧ MclkDump.process_jmidi_event
        [0xf2,
         (JackMidiClock.calc_song_pos exCfgDefault.resync_delay exXposBBT (-1)).toNat &&& 0x7f,
         ((JackMidiClock.calc_song_pos exCfgDefault.resync_delay exXposBBT (-1)).toNat >>> 7) &&& 0x7f]
        777
      = some ⟨0xf2, JackMidiClock.calc_song_pos exCfgDefault.resync_delay exXposBBT (-1), 777⟩ := by
  have hcalc : JackMidiClock.calc_song_pos exCfgDefault.resync_delay exXposBBT (-1) = 52 := by
    norm_num [JackMidiClock.calc_song_pos, exCfgDefault, exXposBBT, rintQ,
      Int.fract, ratTrunc]
  exact ⟨rfl, by rw [hcalc]; norm_num, by rw [hcalc]; norm_num,
    ((claim_C4 exCfgDefault exXposBBT (-1) 777 rfl).1
      ⟨by rw [hcalc]; norm_num, by rw [hcalc]; norm_num⟩).2⟩

/-- Every event `send_pos_message` can emit is a three-byte `0xF2` message
at buffer offset 0. -/
theorem send_pos_message_shape (cfg : JackMidiClock.Config)
    (xpos : JackMidiClock.JackPos) (off : ℤ) (e : JackMidiClock.Event)
    (he : e ∈ (JackMidiClock.send_pos_message cfg xpos off).1.toList) :
    ∃ a b : ℕ, e = ((0 : ℤ), [0xf2, a, b]) := by
  simp only [JackMidiClock.send_pos_message] at he
  split_ifs at he with h1 h2
  · simp at he
  · simp at he
  · simp only [Option.toList_some, List.mem_singleton] at he
    exact ⟨_, _, he⟩

/-- Evaluation of the transport-state-change block for a locate while
rolling (`m_xstate = Starting`, `xstate = Rolling`) with position messages
enabled. -/
theorem transition_locate (cfg : JackMidiClock.Config) (sps : ℤ)
    (lastTick : ℚ) (xpos : JackMidiClock.JackPos)
    (hnp : cfg.no_position = false) :
    JackMidiClock.transition cfg JackMidiClock.TState.rolling
        JackMidiClock.TState.starting sps lastTick xpos
      = ⟨(if sps < 0 then [((0 : ℤ), [0xfc])] else [])
          ++ (if sps ≠ 0 then
                (JackMidiClock.send_pos_message cfg xpos (-1)).1.toList
                ++ (if (JackMidiClock.send_pos_message cfg xpos (-1)).2 < 0
                      ∧ cfg.no_transport = false
                    then [((0 : ℤ), [0xfb])] else [])
              else [])
          ++ (if xpos.frame = 0 then [((0 : ℤ), [0xf8])] else []),
         (if sps ≠ 0 then (JackMidiClock.send_pos_message cfg xpos (-1)).2
          else -1),
         (xpos.frame : ℚ), JackMidiClock.TState.rolling⟩ := by
  unfold JackMidiClock.transition
  rw [if_neg (by decide)]
  by_cases hs0 : sps = 0 <;>
    by_cases hr : (JackMidiClock.send_pos_message cfg xpos (-1)).2 < 0 <;>
    by_cases ht : cfg.no_transport <;>
    simp [hs0, hr, ht, hnp, List.append_assoc]

/-- No single-byte realtime message is ever among the events of
`send_pos_message`. -/
theorem send_pos_message_no_rt (cfg : JackMidiClock.Config)
    (xpos : JackMidiClock.JackPos) (off : ℤ) (m : ℕ) :
    ((0 : ℤ), ([m] : List ℕ)) ∉ (JackMidiClock.send_pos_message cfg xpos off).1.toList := by
  intro hmem
  obtain ⟨a, b, he⟩ := send_pos_message_shape cfg xpos off _ hmem
  simp at he

/-- Claim C5: during a locate while rolling (previous observed state
Starting, new state Rolling, position messages enabled):
a Stop is emitted iff no sync target is armed (`song_position_sync < 0`);
if the armed target is nonzero a new target is computed from
`send_pos_message` and, when that yields no valid position, an immediate
Continue is emitted exactly when transport messages are enabled; if the
armed target is exactly zero the target is cleared to -1 and no Continue
is emitted. -/
theorem claim_C5 (cfg : JackMidiClock.Config) (sps : ℤ) (lastTick : ℚ)
    (xpos : JackMidiClock.JackPos) (hnp : cfg.no_position = false) :
    (((0 : ℤ), [0xfc]) ∈ (JackMidiClock.transition cfg
        JackMidiClock.TState.rolling JackMidiClock.TState.starting sps
        lastTick xpos).events
      ↔ sps < 0)
    ∧ (sps ≠ 0 →
        (JackMidiClock.transition cfg JackMidiClock.TState.rolling
            JackMidiClock.TState.starting sps lastTick xpos).sps
          = (JackMidiClock.send_pos_message cfg xpos (-1)).2
        ∧ ((JackMidiClock.send_pos_message cfg xpos (-1)).2 < 0 →
            (((0 : ℤ), [0xfb]) ∈ (JackMidiClock.transition cfg
                JackMidiClock.TState.rolling JackMidiClock.TState.starting sps
                lastTick xpos).events
              ↔ cfg.no_transport = false)))
    ∧ (sps = 0 →
        (JackMidiClock.transition cfg JackMidiClock.TState.rolling
            JackMidiClock.TState.starting sps lastTick xpos).sps = -1
        ∧ ((0 : ℤ), [0xfb]) ∉ (JackMidiClock.transition cfg
            JackMidiClock.TState.rolling JackMidiClock.TState.starting sps
            lastTick xpos).events) := by
  rw [transition_locate cfg sps lastTick xpos hnp]
  refine ⟨⟨?_, ?_⟩, fun hs0 => ⟨by simp [hs0], fun hr => ?_⟩,
    fun hs0 => ⟨by simp [hs0], ?_⟩⟩
  · intro hmem
    by_contra hneg
    rw [if_neg hneg] at hmem
    simp only [List.nil_append, List.mem_append] at hmem
    rcases hmem with hmem | hmem
    · by_cases hs0 : sps ≠ 0
      · rw [if_pos hs0] at hmem
        simp only [List.mem_append] at hmem
        rcases hmem with hmem | hmem
        · exact send_pos_message_no_rt cfg xpos (-1) 0xfc hmem
        · split_ifs at hmem <;> simp at hmem
      · rw [if_neg hs0] at hmem
        simp at hmem
    · split_ifs at hmem <;> simp at hmem
  · intro hneg
    rw [if_pos hneg]
    simp
  · cases hnt : cfg.no_transport
    · simp only [hnt, and_true, if_pos hr, if_pos hs0]
      constructor
      · intro _
        trivial
      · intro _
        simp [List.mem_append]
    · simp only [hnt]
      constructor
      · intro hmem
        exfalso
        simp only [List.mem_append, if_pos hs0] at hmem
        rcases hmem with (hmem | hmem | hmem) | hmem
        · split_ifs at hmem <;> simp at hmem
        · exact send_pos_message_no_rt cfg xpos (-1) 0xfb hmem
        · rw [if_neg (by simp)] at hmem
          simp at hmem
        · split_ifs at hmem <;> simp at hmem
      · intro hfalse
        simp at hfalse
  · intro hmem
    simp only [List.mem_append, if_neg (by omega : ¬sps < 0),
      if_neg (by simp [hs0] : ¬sps ≠ 0)] at hmem
    rcases hmem with (hmem | hmem) | hmem
    · simp at hmem
    · simp at hmem
    · split_ifs at hmem <;> simp at hmem

theorem claim_C5_witness :
    exCfgDefault.no_position = false
    ∧ ((((0 : ℤ), [0xfc]) ∈ (JackMidiClock.transition exCfgDefault
        JackMidiClock.TState.rolling JackMidiClock.TState.starting (-1)
        0 exXposBBT).events)
      ↔ (-1 : ℤ) < 0) :=
  ⟨rfl, (claim_C5 exCfgDefault (-1) 0 exXposBBT rfl).1⟩

/-- The only Clock event the transport-state-change block can emit is the
single "initial beat tick" at offset 0, and only when the state actually
changed into Rolling. -/
theorem transition_clock_mem (cfg : JackMidiClock.Config)
    (xstate mx : JackMidiClock.TState) (sps : ℤ) (lastTick : ℚ)
    (xpos : JackMidiClock.JackPos) :
    ∀ e ∈ (JackMidiClock.transition cfg xstate mx sps lastTick xpos).events,
      e.2 = [0xf8] →
        e.1 = 0 ∧ xstate = JackMidiClock.TState.rolling ∧ xstate ≠ mx := by
  intro e hmem hbytes
  by_cases hx : xstate = mx
  · simp [JackMidiClock.transition, hx] at hmem
  · simp only [JackMidiClock.transition, if_neg hx, List.mem_append] at hmem
    rcases hmem with hmem | hmem
    · exfalso
      cases hso : (JackMidiClock.send_pos_message cfg xpos (-1)).1 with
      | none =>
        cases xstate <;> simp only [hso, Option.toList_none] at hmem <;>
          split_ifs at hmem <;> try simp_all
        all_goals
          first
          | (rcases hmem with rfl | rfl <;> simp at hbytes)
          | (rcases hmem with rfl | rfl | rfl <;> simp at hbytes)
          | (subst hmem; simp at hbytes)
      | some ev =>
        obtain ⟨a, b, hh⟩ := send_pos_message_shape cfg xpos (-1) ev (by simp [hso])
        subst hh
        cases xstate <;> simp only [hso, Option.toList_some] at hmem <;>
          split_ifs at hmem <;> try simp_all
        all_goals
          first
          | (rcases hmem with rfl | rfl <;> simp at hbytes)
          | (rcases hmem with rfl | rfl | rfl <;> simp at hbytes)
          | (subst hmem; simp at hbytes)
    · split_ifs at hmem with hcond
      · simp only [List.mem_singleton] at hmem
        subst hmem
        exact ⟨rfl, hcond.1, hx⟩
      · simp at hmem

/-- Claim C8, counterexample: a block in which the transport changes from
Stopped to Rolling at frame 0 with no tempo source at all (no forced BPM,
no valid BBT, no user BPM) still emits a Clock: the "initial beat tick"
sent on the state change, before the tempo guard returns.  The claim's
"emits no Clock pulses in that block" is therefore false as stated. -/
theorem claim_C8_counterexample :
    JackMidiClock.process exCfgDefault exGenStopped
        JackMidiClock.TState.rolling exXposInvalid 1024
      = some ([((0 : ℤ), [0xfa]), ((0 : ℤ), [0xf8])],
          ⟨JackMidiClock.TState.rolling, ((0 : ℕ) : ℚ), 0, exBbt0⟩) := rfl

/-- Claim C8, amended: in a block where no tempo source is available to the
code's guard (no forced positive user BPM, no valid transport BBT, no
positive user BPM), `process` returns normally; any Clock event in that
block is the single initial beat tick at offset 0, present only when the
transport state changed into Rolling in that same block; and when the
state did not change the block is a no-op (state returned unchanged, no
events), so pulse emission is re-decided from the snapshot of each later
block and resumes once a valid tempo is seen. -/
theorem claim_C8 (cfg : JackMidiClock.Config) (s : JackMidiClock.GenState)
    (xstate : JackMidiClock.TState) (xpos : JackMidiClock.JackPos) (n : ℕ)
    (h1 : ¬(cfg.force_bpm = true ∧ 0 < cfg.user_bpm))
    (h2 : xpos.bbtValid = false) (h3 : ¬0 < cfg.user_bpm) :
    (JackMidiClock.process cfg s xstate xpos n).isSome = true
    ∧ (∀ p ∈ JackMidiClock.process cfg s xstate xpos n, ∀ e ∈ p.1,
        e.2 = [0xf8] →
          e.1 = 0 ∧ xstate = JackMidiClock.TState.rolling
            ∧ xstate ≠ s.m_xstate)
    ∧ (xstate = s.m_xstate →
        JackMidiClock.process cfg s xstate xpos n = some ([], s)) := by
  have hsb : JackMidiClock.samples_per_beat_opt cfg xpos = none := by
    unfold JackMidiClock.samples_per_beat_opt
    rw [if_neg h1, if_neg (by simp [h2]), if_neg h3]
  have hpc : ¬(xstate = JackMidiClock.TState.stopped
      ∧ s.m_xstate = JackMidiClock.TState.stopped
      ∧ 0 < JackMidiClock.pos_changed s.last_xpos xpos) := by
    rintro ⟨-, -, hpos⟩
    simp only [JackMidiClock.pos_changed, h2, Bool.false_eq_true,
      not_false_iff, if_true] at hpos
    split_ifs at hpos <;> omega
  have hrem : JackMidiClock.remember_pos s.last_xpos xpos = s.last_xpos := by
    unfold JackMidiClock.remember_pos
    rw [if_pos (by simp [h2])]
  have hkey : JackMidiClock.process cfg s xstate xpos n
      = some ((JackMidiClock.transition cfg xstate s.m_xstate
            s.song_position_sync s.mclk_last_tick xpos).events,
          ⟨(JackMidiClock.transition cfg xstate s.m_xstate
              s.song_position_sync s.mclk_last_tick xpos).mx,
           (JackMidiClock.transition cfg xstate s.m_xstate
              s.song_position_sync s.mclk_last_tick xpos).last,
           (JackMidiClock.transition cfg xstate s.m_xstate
              s.song_position_sync s.mclk_last_tick xpos).sps,
           s.last_xpos⟩) := by
    unfold JackMidiClock.process
    rw [if_neg hpc, hrem]
    by_cases hxr : xstate = JackMidiClock.TState.rolling
    · rw [if_neg (by simp [hxr]), hsb]
      rfl
    · rw [if_pos hxr]
      rfl
  refine ⟨by rw [hkey]; rfl, ?_, fun hxm => ?_⟩
  · intro p hp e he hbytes
    rw [hkey] at hp
    simp only [Option.mem_def, Option.some_inj] at hp
    subst hp
    exact transition_clock_mem cfg xstate s.m_xstate s.song_position_sync
      s.mclk_last_tick xpos e he hbytes
  · rw [hkey]
    unfold JackMidiClock.transition
    rw [if_pos hxm]

theorem claim_C8_witness :
    (¬(exCfgDefault.force_bpm = true ∧ 0 < exCfgDefault.user_bpm))
    ∧ exXposInvalid.bbtValid = false
    ∧ (¬0 < exCfgDefault.user_bpm)
    ∧ JackMidiClock.process exCfgDefault exGenRolling
        JackMidiClock.TState.rolling exXposInvalid 1024 = some ([], exGenRolling) :=
  ⟨by simp [exCfgDefault], rfl, by norm_num [exCfgDefault],
   (claim_C8 exCfgDefault exGenRolling JackMidiClock.TState.rolling
     exXposInvalid 1024 (by simp [exCfgDefault]) rfl
     (by norm_num [exCfgDefault])).2.2 rfl⟩

/-- Unfolding of `clockLoop`: break case. -/
theorem clockLoop_break_eq (cfg : JackMidiClock.Config)
    (xpos : JackMidiClock.JackPos) (itv : ℚ) (hitv : 0 < itv) (base : ℤ)
    (n : ℕ) (last : ℚ) (sps : ℤ) (ticks : ℕ)
    (hbr : (n : ℤ) ≤ rintQ (last + itv) - base) :
    JackMidiClock.clockLoop cfg xpos itv hitv base n last sps ticks
      = ⟨[], last, sps, ticks⟩ := by
  rw [JackMidiClock.clockLoop]
  simp [dif_pos hbr]

/-- Unfolding of `clockLoop`: iteration case. -/
theorem clockLoop_step_eq (cfg : JackMidiClock.Config)
    (xpos : JackMidiClock.JackPos) (itv : ℚ) (hitv : 0 < itv) (base : ℤ)
    (n : ℕ) (last : ℚ) (sps : ℤ) (ticks : ℕ)
    (hbr : ¬(n : ℤ) ≤ rintQ (last + itv) - base) :
    JackMidiClock.clockLoop cfg xpos itv hitv base n last sps ticks
      = ⟨(JackMidiClock.iterEvents cfg xpos (rintQ (last + itv) - base) sps ticks).1
          ++ (JackMidiClock.clockLoop cfg xpos itv hitv base n (last + itv)
              (JackMidiClock.iterEvents cfg xpos (rintQ (last + itv) - base) sps ticks).2
              (ticks + 1)).events,
         (JackMidiClock.clockLoop cfg xpos itv hitv base n (last + itv)
              (JackMidiClock.iterEvents cfg xpos (rintQ (last + itv) - base) sps ticks).2
              (ticks + 1)).last,
         (JackMidiClock.clockLoop cfg xpos itv hitv base n (last + itv)
              (JackMidiClock.iterEvents cfg xpos (rintQ (last + itv) - base) sps ticks).2
              (ticks + 1)).sps,
         (JackMidiClock.clockLoop cfg xpos itv hitv base n (last + itv)
              (JackMidiClock.iterEvents cfg xpos (rintQ (last + itv) - base) sps ticks).2
              (ticks + 1)).ticks⟩ := by
  rw [JackMidiClock.clockLoop]
  simp [dif_neg hbr]

/-- Every event emitted by one loop iteration sits at the iteration's
offset, and the iteration emits only when that offset is nonnegative. -/
theorem iterEvents_mem (cfg : JackMidiClock.Config)
    (xpos : JackMidiClock.JackPos) (off sps : ℤ) (ticks : ℕ) :
    ∀ e ∈ (JackMidiClock.iterEvents cfg xpos off sps ticks).1,
      e.1 = off ∧ 0 ≤ off := by
  intro e he
  simp only [JackMidiClock.iterEvents] at he
  split_ifs at he with h0 h1 h2 h3 <;>
    simp only [List.mem_append, List.mem_singleton, List.nil_append,
      List.not_mem_nil, or_false, false_or, List.mem_cons] at he <;>
    first
    | (rcases he with rfl | rfl <;> exact ⟨rfl, h0⟩)
    | (subst he; exact ⟨rfl, h0⟩)
    | exact absurd he (by simp)

/-- Each iteration with nonnegative offset emits its Clock tick. -/
theorem iterEvents_clock (cfg : JackMidiClock.Config)
    (xpos : JackMidiClock.JackPos) (off sps : ℤ) (ticks : ℕ) (h0 : 0 ≤ off) :
    (off, ([0xf8] : List ℕ)) ∈ (JackMidiClock.iterEvents cfg xpos off sps ticks).1 := by
  simp only [JackMidiClock.iterEvents, if_pos h0]
  simp [List.mem_append]

/-- A list all of whose entries equal one value is sorted. -/
theorem sorted_of_const (c : ℤ) :
    ∀ L : List ℤ, (∀ x ∈ L, x = c) → L.Sorted (· ≤ ·) := by
  intro L
  induction L with
  | nil => intro _; simp
  | cons a t ih =>
    intro h
    rw [List.sorted_cons]
    refine ⟨fun b hb => ?_, ih fun x hx => h x (List.mem_cons_of_mem a hx)⟩
    rw [h a (List.mem_cons_self a t), h b (List.mem_cons_of_mem a hb)]

/-- If the loop continues, the next tick still lies before the end of the
block. -/
theorem clockLoop_cont_lt (itv : ℚ) (base : ℤ) (n : ℕ) (last : ℚ)
    (hbr : ¬(n : ℤ) ≤ rintQ (last + itv) - base) :
    last + itv < (base : ℚ) + (n : ℚ) := by
  have hfl := rintQ_floor_le (last + itv)
  have h1 : ⌊last + itv⌋ + 1 ≤ (base : ℤ) + (n : ℤ) := by omega
  have hf := Int.lt_floor_add_one (last + itv)
  have hc : ((⌊last + itv⌋ : ℤ) : ℚ) + 1 ≤ (base : ℚ) + (n : ℚ) := by
    exact_mod_cast h1
  linarith

/-- If the loop continues, the termination measure is at least one. -/
theorem clockLoop_cont_one_le (itv : ℚ) (hitv : 0 < itv) (base : ℤ) (n : ℕ)
    (last : ℚ) (hbr : ¬(n : ℤ) ≤ rintQ (last + itv) - base) :
    1 ≤ (⌈(((base : ℚ) + (n : ℚ)) - last) / itv⌉).toNat := by
  have hX : itv < (base : ℚ) + (n : ℚ) - last := by
    have := clockLoop_cont_lt itv base n last hbr
    linarith
  have hXdiv : 1 < ((base : ℚ) + (n : ℚ) - last) / itv := (one_lt_div hitv).mpr hX
  have : (1 : ℤ) < ⌈((base : ℚ) + (n : ℚ) - last) / itv⌉ :=
    Int.lt_ceil.mpr (by exact_mod_cast hXdiv)
  omega

/-- If the loop continues, the termination measure strictly decreases. -/
theorem clockLoop_measure_lt (itv : ℚ) (hitv : 0 < itv) (base : ℤ) (n : ℕ)
    (last : ℚ) (hbr : ¬(n : ℤ) ≤ rintQ (last + itv) - base) :
    (⌈(((base : ℚ) + (n : ℚ)) - (last + itv)) / itv⌉).toNat
      < (⌈(((base : ℚ) + (n : ℚ)) - last) / itv⌉).toNat := by
  have hX : itv < (base : ℚ) + (n : ℚ) - last := by
    have := clockLoop_cont_lt itv base n last hbr
    linarith
  have hdiv : ((base : ℚ) + (n : ℚ) - (last + itv)) / itv
      = ((base : ℚ) + (n : ℚ) - last) / itv - 1 := by
    field_simp
    ring
  have hXdiv : 1 < ((base : ℚ) + (n : ℚ) - last) / itv := (one_lt_div hitv).mpr hX
  have hceil2 : 2 ≤ ⌈((base : ℚ) + (n : ℚ) - last) / itv⌉ := by
    have : (1 : ℤ) < ⌈((base : ℚ) + (n : ℚ) - last) / itv⌉ :=
      Int.lt_ceil.mpr (by exact_mod_cast hXdiv)
    omega
  have heq : ⌈((base : ℚ) + (n : ℚ) - (last + itv)) / itv⌉
      = ⌈((base : ℚ) + (n : ℚ) - last) / itv⌉ - 1 := by
    rw [hdiv]
    exact_mod_cast Int.ceil_sub_int (((base : ℚ) + (n : ℚ) - last) / itv) 1
  rw [heq]
  omega

/-- The break case of the loop invariant bundle. -/
theorem clockLoop_break_spec (cfg : JackMidiClock.Config)
    (xpos : JackMidiClock.JackPos) (itv : ℚ) (hitv : 0 < itv) (base : ℤ)
    (n : ℕ) (last : ℚ) (sps : ℤ) (ticks : ℕ)
    (hbr : (n : ℤ) ≤ rintQ (last + itv) - base) :
    (∀ e ∈ (JackMidiClock.clockLoop cfg xpos itv hitv base n last sps ticks).events,
        rintQ (last + itv) - base ≤ e.1 ∧ 0 ≤ e.1 ∧ e.1 < (n : ℤ))
    ∧ ticks ≤ (JackMidiClock.clockLoop cfg xpos itv hitv base n last sps ticks).ticks
    ∧ (JackMidiClock.clockLoop cfg xpos itv hitv base n last sps ticks).last
        = last + (((JackMidiClock.clockLoop cfg xpos itv hitv base n last sps ticks).ticks
            - ticks : ℕ) : ℚ) * itv
    ∧ (n : ℤ) ≤ rintQ ((JackMidiClock.clockLoop cfg xpos itv hitv base n last sps ticks).last
        + itv) - base
    ∧ (∀ j : ℕ, j < (JackMidiClock.clockLoop cfg xpos itv hitv base n last sps ticks).ticks
          - ticks →
        rintQ (last + ((j : ℚ) + 1) * itv) - base < (n : ℤ)
        ∧ (0 ≤ rintQ (last + ((j : ℚ) + 1) * itv) - base →
            (rintQ (last + ((j : ℚ) + 1) * itv) - base, ([0xf8] : List ℕ))
              ∈ (JackMidiClock.clockLoop cfg xpos itv hitv base n last sps ticks).events))
    ∧ (((JackMidiClock.clockLoop cfg xpos itv hitv base n last sps ticks).events.map
        Prod.fst).Sorted (· ≤ ·)) := by
  rw [clockLoop_break_eq cfg xpos itv hitv base n last sps ticks hbr]
  refine ⟨by simp, le_refl _, by simp, hbr, fun j hj => ?_, by simp⟩
  have hj' : j < ticks - ticks := hj
  omega

/-- The loop invariant bundle, by induction on a bound for the iteration
count: event offsets are bounded below by the first iteration's offset,
nonnegative and below the block length; `ticks_sent_this_cycle` counts the
iterations; the accumulator advances by exactly one interval per
iteration; the loop stops at the first tick at or past the block end; the
iteration at index `j` emits its Clock at offset
`round(last + (j+1)*interval) - base` whenever that offset is
nonnegative; and the emitted offsets are monotonically nondecreasing. -/
theorem clockLoop_spec (cfg : JackMidiClock.Config)
    (xpos : JackMidiClock.JackPos) (itv : ℚ) (hitv : 0 < itv) (base : ℤ)
    (n : ℕ) :
    ∀ μ : ℕ, ∀ last : ℚ, ∀ sps : ℤ, ∀ ticks : ℕ,
      (⌈(((base : ℚ) + (n : ℚ)) - last) / itv⌉).toNat ≤ μ →
      (∀ e ∈ (JackMidiClock.clockLoop cfg xpos itv hitv base n last sps ticks).events,
          rintQ (last + itv) - base ≤ e.1 ∧ 0 ≤ e.1 ∧ e.1 < (n : ℤ))
      ∧ ticks ≤ (JackMidiClock.clockLoop cfg xpos itv hitv base n last sps ticks).ticks
      ∧ (JackMidiClock.clockLoop cfg xpos itv hitv base n last sps ticks).last
          = last + (((JackMidiClock.clockLoop cfg xpos itv hitv base n last sps ticks).ticks
              - ticks : ℕ) : ℚ) * itv
      ∧ (n : ℤ) ≤ rintQ ((JackMidiClock.clockLoop cfg xpos itv hitv base n last sps ticks).last
          + itv) - base
      ∧ (∀ j : ℕ, j < (JackMidiClock.clockLoop cfg xpos itv hitv base n last sps ticks).ticks
            - ticks →
          rintQ (last + ((j : ℚ) + 1) * itv) - base < (n : ℤ)
          ∧ (0 ≤ rintQ (last + ((j : ℚ) + 1) * itv) - base →
              (rintQ (last + ((j : ℚ) + 1) * itv) - base, ([0xf8] : List ℕ))
                ∈ (JackMidiClock.clockLoop cfg xpos itv hitv base n last sps ticks).events))
      ∧ (((JackMidiClock.clockLoop cfg xpos itv hitv base n last sps ticks).events.map
          Prod.fst).Sorted (· ≤ ·)) := by
  intro μ
  induction μ with
  | zero =>
    intro last sps ticks hμ
    have hbr : (n : ℤ) ≤ rintQ (last + itv) - base := by
      by_contra hbr
      have := clockLoop_cont_one_le itv hitv base n last hbr
      omega
    exact clockLoop_break_spec cfg xpos itv hitv base n last sps ticks hbr
  | succ μ ih =>
    intro last sps ticks hμ
    by_cases hbr : (n : ℤ) ≤ rintQ (last + itv) - base
    · exact clockLoop_break_spec cfg xpos itv hitv base n last sps ticks hbr
    · have hm := clockLoop_measure_lt itv hitv base n last hbr
      obtain ⟨ihA, ihB, ihC, ihD, ihE, ihF⟩ :=
        ih (last + itv)
          (JackMidiClock.iterEvents cfg xpos (rintQ (last + itv) - base) sps ticks).2
          (ticks + 1) (by omega)
      rw [clockLoop_step_eq cfg xpos itv hitv base n last sps ticks hbr]
      have hofflt : rintQ (last + itv) - base < (n : ℤ) := by omega
      have hmono : rintQ (last + itv) ≤ rintQ (last + itv + itv) :=
        rintQ_mono (by linarith)
      refine ⟨?_, ?_, ?_, ihD, ?_, ?_⟩
      · intro ev hev
        simp only [List.mem_append] at hev
        rcases hev with hev | hev
        · obtain ⟨heq, h0⟩ :=
            iterEvents_mem cfg xpos (rintQ (last + itv) - base) sps ticks ev hev
          exact ⟨by omega, by omega, by omega⟩
        · obtain ⟨hlb, h0, hlt⟩ := ihA ev hev
          exact ⟨by omega, h0, hlt⟩
      · show ticks ≤ (JackMidiClock.clockLoop cfg xpos itv hitv base n (last + itv)
            (JackMidiClock.iterEvents cfg xpos (rintQ (last + itv) - base) sps ticks).2
            (ticks + 1)).ticks
        have := ihB
        omega
      · have h1 : ticks + 1
            ≤ (JackMidiClock.clockLoop cfg xpos itv hitv base n (last + itv)
              (JackMidiClock.iterEvents cfg xpos (rintQ (last + itv) - base) sps ticks).2
              (ticks + 1)).ticks := ihB
        have hc : (((JackMidiClock.clockLoop cfg xpos itv hitv base n (last + itv)
              (JackMidiClock.iterEvents cfg xpos (rintQ (last + itv) - base) sps ticks).2
              (ticks + 1)).ticks - ticks : ℕ) : ℚ)
            = (((JackMidiClock.clockLoop cfg xpos itv hitv base n (last + itv)
              (JackMidiClock.iterEvents cfg xpos (rintQ (last + itv) - base) sps ticks).2
              (ticks + 1)).ticks - (ticks + 1) : ℕ) : ℚ) + 1 := by
          have h2 : (JackMidiClock.clockLoop cfg xpos itv hitv base n (last + itv)
              (JackMidiClock.iterEvents cfg xpos (rintQ (last + itv) - base) sps ticks).2
              (ticks + 1)).ticks - ticks
            = ((JackMidiClock.clockLoop cfg xpos itv hitv base n (last + itv)
              (JackMidiClock.iterEvents cfg xpos (rintQ (last + itv) - base) sps ticks).2
              (ticks + 1)).ticks - (ticks + 1)) + 1 := by omega
          rw [h2]
          push_cast
          ring
        rw [ihC, hc]
        ring
      · intro j hj
        have hj2 : j < (JackMidiClock.clockLoop cfg xpos itv hitv base n (last + itv)
            (JackMidiClock.iterEvents cfg xpos (rintQ (last + itv) - base) sps ticks).2
            (ticks + 1)).ticks - ticks := hj
        have hjb : ticks + 1
            ≤ (JackMidiClock.clockLoop cfg xpos itv hitv base n (last + itv)
              (JackMidiClock.iterEvents cfg xpos (rintQ (last + itv) - base) sps ticks).2
              (ticks + 1)).ticks := ihB
        cases j with
        | zero =>
          have harg : last + (((0 : ℕ) : ℚ) + 1) * itv = last + itv := by
            push_cast
            ring
          rw [harg]
          refine ⟨hofflt, fun h0 => ?_⟩
          exact List.mem_append_left _
            (iterEvents_clock cfg xpos (rintQ (last + itv) - base) sps ticks h0)
        | succ j' =>
          have hj' : j' < (JackMidiClock.clockLoop cfg xpos itv hitv base n (last + itv)
              (JackMidiClock.iterEvents cfg xpos (rintQ (last + itv) - base) sps ticks).2
              (ticks + 1)).ticks - (ticks + 1) := by omega
          obtain ⟨hlt, hmem⟩ := ihE j' hj'
          have harg : last + itv + ((j' : ℚ) + 1) * itv
              = last + (((j' + 1 : ℕ) : ℚ) + 1) * itv := by
            push_cast
            ring
          rw [harg] at hlt hmem
          exact ⟨hlt, fun h0 => List.mem_append_right _ (hmem h0)⟩
      · rw [List.map_append]
        refine List.pairwise_append.mpr ⟨?_, ihF, ?_⟩
        · apply sorted_of_const (rintQ (last + itv) - base)
          intro x hx
          obtain ⟨ev, hev, rfl⟩ := List.mem_map.mp hx
          exact (iterEvents_mem cfg xpos (rintQ (last + itv) - base) sps ticks
            ev hev).1
        · intro x hx y hy
          obtain ⟨ev, hev, rfl⟩ := List.mem_map.mp hx
          obtain ⟨ev', hev', rfl⟩ := List.mem_map.mp hy
          have hx1 := (iterEvents_mem cfg xpos (rintQ (last + itv) - base) sps ticks
            ev hev).1
          have hy1 := (ihA ev' hev').1
          omega

/-- When the spec-side effective tempo is defined, the code's tempo branch
yields a `samples_per_beat` whose derived tick interval equals the spec's
`frameRate*60/effectiveTempo/24`; the `bbt_offset` actually used is the
transport's BBT frame offset exactly when the transport-BBT tempo branch is
taken and `JackBBTFrameOffset` is valid, and 0 otherwise. -/
theorem samples_per_beat_eq_eff (cfg : JackMidiClock.Config)
    (xpos : JackMidiClock.JackPos) (e : ℚ)
    (he : JackMidiClock.effectiveTempo cfg xpos = some e) :
    ∃ spb : ℚ, JackMidiClock.samples_per_beat_opt cfg xpos
        = some (spb,
            if ¬(cfg.force_bpm = true ∧ 0 < cfg.user_bpm)
                ∧ xpos.bbtValid = true ∧ xpos.frameOffsetValid = true
            then xpos.bbt_offset else 0)
      ∧ spb / JackMidiClock.quarter_notes_per_beat cfg xpos / 24
          = (xpos.frame_rate : ℚ) * 60 / e / 24 := by
  simp only [JackMidiClock.effectiveTempo, JackMidiClock.transport_tempo_opt] at he
  unfold JackMidiClock.samples_per_beat_opt
  by_cases h1 : cfg.force_bpm = true ∧ 0 < cfg.user_bpm
  · rw [if_pos h1] at he ⊢
    rw [if_neg (show ¬(¬(cfg.force_bpm = true ∧ 0 < cfg.user_bpm)
        ∧ xpos.bbtValid = true ∧ xpos.frameOffsetValid = true) from fun h => h.1 h1)]
    have he' : cfg.user_bpm * JackMidiClock.quarter_notes_per_beat cfg xpos = e := by
      simpa using he
    refine ⟨_, rfl, ?_⟩
    rw [← he', div_div ((xpos.frame_rate : ℚ) * 60) cfg.user_bpm
      (JackMidiClock.quarter_notes_per_beat cfg xpos)]
  · rw [if_neg h1] at he ⊢
    by_cases h2 : xpos.bbtValid = true
    · rw [if_pos h2] at he ⊢
      have hoff : (if xpos.frameOffsetValid then xpos.bbt_offset else 0)
          = (if ¬(cfg.force_bpm = true ∧ 0 < cfg.user_bpm)
              ∧ xpos.bbtValid = true ∧ xpos.frameOffsetValid = true
            then xpos.bbt_offset else 0) := by
        by_cases h4 : xpos.frameOffsetValid = true
        · simp [h4, h1, h2]
        · simp [h4]
      rw [hoff]
      have he' : xpos.beats_per_minute * JackMidiClock.quarter_notes_per_beat cfg xpos
          = e := by
        simpa using he
      refine ⟨_, rfl, ?_⟩
      rw [← he', div_div ((xpos.frame_rate : ℚ) * 60) xpos.beats_per_minute
        (JackMidiClock.quarter_notes_per_beat cfg xpos)]
    · rw [if_neg h2] at he ⊢
      rw [if_neg (show ¬(¬(cfg.force_bpm = true ∧ 0 < cfg.user_bpm)
          ∧ xpos.bbtValid = true ∧ xpos.frameOffsetValid = true) from
        fun h => h2 h.2.1)]
      by_cases h3 : 0 < cfg.user_bpm
      · rw [if_pos h3] at he ⊢
        have he' : cfg.user_bpm * JackMidiClock.quarter_notes_per_beat cfg xpos = e := by
          simpa using he
        refine ⟨_, rfl, ?_⟩
        rw [← he', div_div ((xpos.frame_rate : ℚ) * 60) cfg.user_bpm
          (JackMidiClock.quarter_notes_per_beat cfg xpos)]
      · rw [if_neg h3] at he
        exact absurd he (by simp)

/-- Claim C1 (amended): with the transport rolling and a positive
effective tempo known, the interval is `frameRate*60/effectiveTempo/24`;
`process` runs the tick loop starting from the carried accumulator, which
is reset to the transport frame exactly when the transport state changed;
within the loop, iteration `j` takes
`nextTick = lastTickPosition + (j+1)*interval` and offset
`round(nextTick) - blockStartFrame - bbtOffset`, where `bbtOffset` is the
transport's BBT frame offset when the transport-BBT tempo is in use and
`JackBBTFrameOffset` is valid and 0 otherwise (this subtraction is the
correction to the claim as stated); it emits a Clock for every iteration
whose offset lies in `[0, blockLength)`, all emitted offsets are
nonnegative, strictly below the block length and monotonically
nondecreasing, the loop stops at the first tick at or past the block end,
and the final fractional accumulator `lastTickPosition` (carried into the
returned state for the next block) equals the start plus one interval per
iteration. -/
theorem claim_C1 (cfg : JackMidiClock.Config) (s : JackMidiClock.GenState)
    (xpos : JackMidiClock.JackPos) (n : ℕ) (e : ℚ)
    (he : JackMidiClock.effectiveTempo cfg xpos = some e) (he0 : 0 < e)
    (hr : 0 < xpos.frame_rate) :
    let itv : ℚ := (xpos.frame_rate : ℚ) * 60 / e / 24
    let off : ℕ := if ¬(cfg.force_bpm = true ∧ 0 < cfg.user_bpm)
        ∧ xpos.bbtValid = true ∧ xpos.frameOffsetValid = true
      then xpos.bbt_offset else 0
    let base : ℤ := (xpos.frame : ℤ) + (off : ℤ)
    let tr := JackMidiClock.transition cfg JackMidiClock.TState.rolling
      s.m_xstate s.song_position_sync s.mclk_last_tick xpos
    JackMidiClock.clock_tick_interval cfg xpos = some itv
    ∧ (∃ spb : ℚ, JackMidiClock.samples_per_beat_opt cfg xpos = some (spb, off))
    ∧ 0 < itv
    ∧ tr.last = (if s.m_xstate = JackMidiClock.TState.rolling
        then s.mclk_last_tick else (xpos.frame : ℚ))
    ∧ ∀ hitv : 0 < itv,
        let lp := JackMidiClock.clockLoop cfg xpos itv hitv base n
          tr.last tr.sps 0
        JackMidiClock.process cfg s JackMidiClock.TState.rolling xpos n
            = some (tr.events ++ lp.events,
                ⟨tr.mx, lp.last, lp.sps, JackMidiClock.remember_pos s.last_xpos xpos⟩)
        ∧ (∀ ev ∈ lp.events, 0 ≤ ev.1 ∧ ev.1 < (n : ℤ))
        ∧ ((lp.events.map Prod.fst).Sorted (· ≤ ·))
        ∧ lp.last = tr.last + (lp.ticks : ℚ) * itv
        ∧ (n : ℤ) ≤ rintQ (lp.last + itv) - base
        ∧ ∀ j : ℕ, j < lp.ticks →
            rintQ (tr.last + ((j : ℚ) + 1) * itv) - base < (n : ℤ)
            ∧ (0 ≤ rintQ (tr.last + ((j : ℚ) + 1) * itv) - base →
                (rintQ (tr.last + ((j : ℚ) + 1) * itv) - base,
                  ([0xf8] : List ℕ)) ∈ lp.events) := by
  intro itv off base tr
  obtain ⟨spb, hsb, heq⟩ := samples_per_beat_eq_eff cfg xpos e he
  have hint : JackMidiClock.clock_tick_interval cfg xpos = some itv := by
    unfold JackMidiClock.clock_tick_interval
    rw [hsb]
    simpa using heq
  have hpos : 0 < itv := by
    apply div_pos (div_pos (mul_pos _ _) he0) (by norm_num)
    · exact_mod_cast hr
    · norm_num
  refine ⟨hint, ⟨spb, hsb⟩, hpos, ?_, ?_⟩
  · show (JackMidiClock.transition cfg JackMidiClock.TState.rolling s.m_xstate
        s.song_position_sync s.mclk_last_tick xpos).last = _
    unfold JackMidiClock.transition
    by_cases hxm : JackMidiClock.TState.rolling = s.m_xstate
    · rw [if_pos hxm, if_pos hxm.symm]
    · rw [if_neg hxm,
        if_neg (show ¬s.m_xstate = JackMidiClock.TState.rolling from
          fun h => hxm h.symm)]
  · intro hitv lp
    obtain ⟨sA, sB, sC, sD, sE, sF⟩ := clockLoop_spec cfg xpos itv hitv
      base n
      ((⌈(((base : ℚ) + (n : ℚ)) - tr.last) / itv⌉).toNat)
      tr.last tr.sps 0 (le_refl _)
    refine ⟨?_, fun ev hev => ⟨(sA ev hev).2.1, (sA ev hev).2.2⟩, sF,
      by simpa using sC, sD, fun j hj => sE j (by simpa using hj)⟩
    unfold JackMidiClock.process
    rw [if_neg (by simp)]
    rw [if_neg (by simp)]
    simp only [hsb, heq]
    rw [dif_pos hitv]
    rfl

theorem claim_C1_witness :
    JackMidiClock.effectiveTempo exCfgDefault exXposOffs = some 120
    ∧ (0 : ℚ) < 120
    ∧ 0 < exXposOffs.frame_rate
    ∧ JackMidiClock.clock_tick_interval exCfgDefault exXposOffs
        = some ((exXposOffs.frame_rate : ℚ) * 60 / 120 / 24)
    ∧ (exXposOffs.frame_rate : ℚ) * 60 / 120 / 24 = 1000 := by
  have h1 : JackMidiClock.effectiveTempo exCfgDefault exXposOffs = some 120 := by
    norm_num [JackMidiClock.effectiveTempo, JackMidiClock.transport_tempo_opt,
      JackMidiClock.quarter_notes_per_beat, exCfgDefault, exXposOffs]
  have h := claim_C1 exCfgDefault exGenRolling exXposOffs 1024 120 h1
    (by norm_num) (by decide)
  exact ⟨h1, by norm_num, by decide, h.1, by norm_num [exXposOffs]⟩

/-- Counterexample to claim C1 as stated: in a rolling 1024-frame block at
frame 0 with interval 1000, carried accumulator 0 and a transport-reported
BBT frame offset of 500, the claim's offset formula
`round(lastTickPosition + interval) - blockStartFrame` gives 1000, which
lies in `[0, 1024)`, so the claim requires a Clock pulse at offset 1000;
the code instead subtracts the BBT frame offset and emits its only Clock
at offset 500, and no event at offset 1000 is emitted. -/
theorem claim_C1_counterexample :
    JackMidiClock.effectiveTempo exCfgDefault exXposOffs = some 120
    ∧ JackMidiClock.clock_tick_interval exCfgDefault exXposOffs = some 1000
    ∧ exGenRolling.m_xstate = JackMidiClock.TState.rolling
    ∧ JackMidiClock.process exCfgDefault exGenRolling
        JackMidiClock.TState.rolling exXposOffs 1024
      = some ([((500 : ℤ), [0xf8])],
          ⟨JackMidiClock.TState.rolling, 1000, -1, ⟨true, 3, 2, 60, 0⟩⟩)
    ∧ rintQ (exGenRolling.mclk_last_tick + ((0 : ℚ) + 1) * 1000)
        - (exXposOffs.frame : ℤ) = 1000
    ∧ (0 : ℤ) ≤ 1000 ∧ (1000 : ℤ) < 1024
    ∧ ((1000 : ℤ), ([0xf8] : List ℕ)) ∉ [((500 : ℤ), ([0xf8] : List ℕ))] := by
  have h1 : JackMidiClock.effectiveTempo exCfgDefault exXposOffs = some 120 := by
    norm_num [JackMidiClock.effectiveTempo, JackMidiClock.transport_tempo_opt,
      JackMidiClock.quarter_notes_per_beat, exCfgDefault, exXposOffs]
  have hsb : JackMidiClock.samples_per_beat_opt exCfgDefault exXposOffs
      = some (24000, 500) := by
    norm_num [JackMidiClock.samples_per_beat_opt, exCfgDefault, exXposOffs]
  have hq : (24000 : ℚ) / JackMidiClock.quarter_notes_per_beat
      exCfgDefault exXposOffs / 24 = 1000 := by
    norm_num [JackMidiClock.quarter_notes_per_beat, exCfgDefault]
  have hpos1000 : (0 : ℚ) < 1000 := by norm_num
  have hr1 : rintQ ((0 : ℚ) + 1000) = 1000 := by
    norm_num [rintQ, Int.fract]
  have hr2 : rintQ ((0 : ℚ) + 1000 + 1000) = 2000 := by
    norm_num [rintQ, Int.fract]
  have hiter : JackMidiClock.iterEvents exCfgDefault exXposOffs
      (rintQ ((0 : ℚ) + 1000) - 500) (-1) 0 = ([((500 : ℤ), [0xf8])], -1) := by
    rw [hr1]
    norm_num [JackMidiClock.iterEvents]
  have hloop : JackMidiClock.clockLoop exCfgDefault exXposOffs 1000 hpos1000
      500 1024 0 (-1) 0 = ⟨[((500 : ℤ), [0xf8])], (0 : ℚ) + 1000, -1, 1⟩ := by
    rw [clockLoop_step_eq exCfgDefault exXposOffs 1000 hpos1000 500 1024 0 (-1) 0
      (by rw [hr1]; norm_num)]
    simp only [hiter]
    rw [clockLoop_break_eq exCfgDefault exXposOffs 1000 hpos1000 500 1024
      ((0 : ℚ) + 1000) (-1) 1 (by rw [hr2]; norm_num)]
    simp
  have hproc : JackMidiClock.process exCfgDefault exGenRolling
      JackMidiClock.TState.rolling exXposOffs 1024
      = some ([((500 : ℤ), [0xf8])],
          ⟨JackMidiClock.TState.rolling, 1000, -1, ⟨true, 3, 2, 60, 0⟩⟩) := by
    have hmx : exGenRolling.m_xstate = JackMidiClock.TState.rolling := rfl
    have hlast : exGenRolling.mclk_last_tick = 0 := rfl
    have hsps : exGenRolling.song_position_sync = -1 := rfl
    have hframe : exXposOffs.frame = 0 := rfl
    unfold JackMidiClock.process
    rw [if_neg (by simp)]
    rw [if_neg (by simp)]
    simp [hsb, hq, JackMidiClock.transition, hmx, hlast, hsps, hframe]
    rw [hloop]
    norm_num [JackMidiClock.remember_pos, exGenRolling, exXposOffs, exBbt0,
      JackMidiClock.pos_changed]
  have hclk : JackMidiClock.clock_tick_interval exCfgDefault exXposOffs
      = some 1000 := by
    unfold JackMidiClock.clock_tick_interval
    rw [hsb]
    simpa using hq
  refine ⟨h1, hclk, rfl, hproc, ?_, by norm_num, by norm_num, by decide⟩
  have : exGenRolling.mclk_last_tick = 0 := rfl
  rw [this]
  norm_num [rintQ, Int.fract, exXposOffs]
